import Mathlib

/-!
Verification development for the OpenAPI editor-extension core
(extension event handlers and the audit issue-mapping flow).

The TypeScript sources embedded here are `src/extension.ts` (document
change handlers, version context, diagnostics wiring) and the audit
activation module (`findIssueLocation`, `processIssues`,
`auditDocument`).  External collaborators that are not part of the
sources (the AST node library, the bundler mapping lookup, the
location resolver) are modelled from the specification; each such
definition carries a doc comment saying so.
-/

set_option autoImplicit false

namespace OpenApiExt

/-- Modelled from the spec: a tree element of the AST.  Following the
design note that the prototype-style Node becomes an arena of nodes
indexed by pointer, an AST is a flat list of nodes, each carrying its
pointer (`path`), its line number and its source range. -/
structure Node where
  path : String
  line : Nat
  rangeStart : Nat
  rangeEnd : Nat
deriving DecidableEq, Repr

/-- An AST is the arena of its nodes. -/
def Ast := List Node
deriving DecidableEq, Repr

/-- Modelled from the spec: the sole tree-query primitive,
`find(pointer) -> Node | undefined`, looks a pointer up in the arena. -/
def Ast.find : Ast → String → Option Node
  | [], _ => none
  | n :: rest, pointer => if n.path = pointer then some n else Ast.find rest pointer

/-- An externally reported issue, as delivered by the audit service:
pointer in merged-document space plus severity, message and ruleId. -/
structure ReportedIssue where
  pointer : String
  severity : Nat
  message : String
  ruleId : String
deriving DecidableEq, Repr

/-- A resolved issue: a reported issue extended with `documentUri`,
`lineNo` and the source range. -/
structure Issue where
  pointer : String
  severity : Nat
  message : String
  ruleId : String
  documentUri : String
  lineNo : Nat
  rangeStart : Nat
  rangeEnd : Nat
deriving DecidableEq, Repr

/-- One entry of the Mapping Table: the originating uri together with
an optional pointer and an optional hash (the spec schema has exactly
one of the two present, but the type does not force it). -/
structure Mapping where
  uri : String
  pointer : Option String
  hash : Option String
deriving DecidableEq, Repr

/-- The Mapping Table, keyed by merged pointer. -/
def Mappings := List (String × Mapping)
deriving DecidableEq, Repr

/-- Modelled from the spec: `findMapping` of the bundler module (not
among the sources) is the Mapping Table lookup, a one-directional
partial function from merged-pointer to its entry; pointers without an
entry yield nothing. -/
def findMapping : Mappings → String → Option Mapping
  | [], _ => none
  | (k, m) :: rest, pointer => if k = pointer then some m else findMapping rest pointer

/-- The document cache as seen by the audit flow: it serves the
last-known-good AST of a document identified by its uri. -/
structure Cache where
  getLastGoodDocumentAst : String → Ast

/-- `findIssueLocation` from the audit module: look the pointer up in
the root AST first; on success the issue belongs to the main document
under the same pointer.  Otherwise consult the Mapping Table; the
source dereferences `mapping.hash` without a null check, so a missing
entry raises a TypeError, modelled as `Except.error`; an entry whose
`hash` is absent falls through and returns no location (`ok none`). -/
def findIssueLocation (mainUri : String) (root : Ast) (mappings : Mappings)
    (pointer : String) : Except String (Option (String × String)) :=
  match Ast.find root pointer with
  | some _ => Except.ok (some (mainUri, pointer))
  | none =>
    match findMapping mappings pointer with
    | none => Except.error "TypeError: Cannot read property hash of undefined"
    | some mapping =>
      match mapping.hash with
      | some h => Except.ok (some (mapping.uri, h))
      | none => Except.ok none

/-- Insert a uri into the key set of `documentUris`, keeping insertion
order and never duplicating a key (the source stores keys of an
object). -/
def insertUri (uris : List String) (uri : String) : List String :=
  if uri ∈ uris then uris else uris ++ [uri]

/-- Append an issue to the per-document group of `uri`, creating the
group at the end when it does not exist yet (the source creates an
empty array and pushes into it). -/
def insertIssue (d : List (String × List ReportedIssue)) (uri : String)
    (issue : ReportedIssue) : List (String × List ReportedIssue) :=
  match d with
  | [] => [(uri, [issue])]
  | (k, v) :: rest =>
    if k = uri then (k, v ++ [issue]) :: rest else (k, v) :: insertIssue rest uri issue

/-- The loop body of `processIssues`, threading the three accumulators
through the issue list; a thrown lookup aborts the whole run. -/
def processIssuesLoop (mainUri : String) (root : Ast) (mappings : Mappings) :
    List ReportedIssue → List String → List (String × List ReportedIssue) →
    List ReportedIssue →
    Except String (List String × List (String × List ReportedIssue) × List ReportedIssue)
  | [], uris, perDoc, bad => Except.ok (uris, perDoc, bad)
  | issue :: rest, uris, perDoc, bad =>
    match findIssueLocation mainUri root mappings issue.pointer with
    | Except.error e => Except.error e
    | Except.ok none =>
      processIssuesLoop mainUri root mappings rest uris perDoc (bad ++ [issue])
    | Except.ok (some (uri, pointer)) =>
      processIssuesLoop mainUri root mappings rest (insertUri uris uri)
        (insertIssue perDoc uri { issue with pointer := pointer }) bad

/-- `processIssues` from the audit module: starting from the main
document uri as the only known document, place every reported issue
either into its resolved per-document group (with its pointer replaced
by the resolved one) or into the bad-issue list. -/
def processIssues (documentUri : String) (cache : Cache) (mappings : Mappings)
    (issues : List ReportedIssue) :
    Except String (Ast × List String × List (String × List ReportedIssue) × List ReportedIssue) :=
  let root := cache.getLastGoodDocumentAst documentUri
  match processIssuesLoop documentUri root mappings issues [documentUri] [] [] with
  | Except.error e => Except.error e
  | Except.ok (uris, perDoc, bad) => Except.ok (root, uris, perDoc, bad)

/-- Association-list lookup used for the `files` table of
`auditDocument`. -/
def alistGet {β : Type} : List (String × β) → String → Option β
  | [], _ => none
  | (k, v) :: rest, key => if k = key then some v else alistGet rest key

/-- The document-loading loop of `auditDocument`: for each uri not yet
in the `files` table, open the document and parse it (here: fetch its
last-good AST from the cache) and record it.  The second component of
the result is the trace of uris for which `openTextDocument` was
actually called. -/
def loadFilesLoop (cache : Cache) :
    List String → List (String × Ast) → List (String × Ast) × List String
  | [], files => (files, [])
  | uri :: rest, files =>
    match alistGet files uri with
    | some _ => loadFilesLoop cache rest files
    | none =>
      let loaded := loadFilesLoop cache rest (files ++ [(uri, cache.getLastGoodDocumentAst uri)])
      (loaded.1, uri :: loaded.2)

/-- The `files` table of `auditDocument`, seeded with the main document
and its root AST, then filled by the loading loop. -/
def loadFiles (cache : Cache) (mainUri : String) (mainRoot : Ast)
    (documentUris : List String) : List (String × Ast) × List String :=
  loadFilesLoop cache documentUris [(mainUri, mainRoot)]

/-- Split a character list into slash-separated segments, accumulating
the characters of the current segment in reverse. -/
def splitSegsAux : List Char → List Char → List String
  | [], acc => [String.mk acc.reverse]
  | c :: rest, acc =>
    if c = '/' then String.mk acc.reverse :: splitSegsAux rest []
    else splitSegsAux rest (c :: acc)

/-- The slash-separated segments of a pointer. -/
def pointerSegs (pointer : String) : List String :=
  splitSegsAux pointer.data []

/-- Join segments back into a slash-separated pointer. -/
def joinSegs : List String → String
  | [] => ""
  | [s] => s
  | s :: rest => s ++ "/" ++ joinSegs rest

/-- All prefixes of a slash-separated pointer, from the pointer itself
down to the root pointer, used for the ancestor fallback. -/
def pointerPrefixes (pointer : String) : List String :=
  let segs := pointerSegs pointer
  ((List.range segs.length).reverse).map (fun k => joinSegs (segs.take (k + 1)))

/-- Modelled from the spec: `getLocationByPointer` of the audit util
module (not among the sources) resolves a pointer to a line number and
range: the exact node when present, otherwise the nearest existing
ancestor, otherwise the first line of the document. -/
def getLocationByPointer (root : Ast) (pointer : String) : Nat × Nat × Nat :=
  match (pointerPrefixes pointer).findSome? (fun p => Ast.find root p) with
  | some n => (n.line, n.rangeStart, n.rangeEnd)
  | none => (0, 0, 0)

/-- The issue-construction step of `auditDocument`: every reported
issue of the group for `uri` is spread into an `Issue` gaining
`documentUri`, `lineNo` and the range returned by the location
resolver. -/
def makeIssues (root : Ast) (uri : String) (reportedIssues : List ReportedIssue) :
    List Issue :=
  reportedIssues.map (fun issue =>
    let loc := getLocationByPointer root issue.pointer
    { pointer := issue.pointer
      severity := issue.severity
      message := issue.message
      ruleId := issue.ruleId
      documentUri := uri
      lineNo := loc.1
      rangeStart := loc.2.1
      rangeEnd := loc.2.2 })

/-- Modelled from the spec: the version discriminator returned by the
parser (types module not among the sources); a document is OpenAPI v2,
OpenAPI v3 or unsupported. -/
inductive OpenApiVersion where
  | V2
  | V3
  | Unknown
deriving DecidableEq, Repr

/-- The triple returned by `parseDocument` of the util module:
`[version, node, errors]`; `errors` is null (`none`) exactly on an
error-free parse. -/
structure ParseResult where
  version : OpenApiVersion
  node : Ast
  errors : Option (List String)
deriving Repr

/-- One observable action of an extension event handler: a
`setContext` command, firing one of the three event emitters, an
invocation of the parser, or a diagnostics-collection update. -/
inductive Effect where
  | setContext (key : String) (value : Bool)
  | fireTreeValid (node : Option Ast)
  | fireTreeIncludingErrors (node : Option Ast)
  | fireEditor (version : OpenApiVersion)
  | parseCall (uri : String)
  | diagnosticsSet (uri : String) (errors : List String)
  | diagnosticsDelete (uri : String)
deriving DecidableEq, Repr

/-- `updateVersionContext` from `extension.ts`: v2 enables the two-flag
and disables the three-flag, v3 the reverse, anything else disables
both. -/
def updateVersionContext (version : OpenApiVersion) : List Effect :=
  match version with
  | OpenApiVersion.V2 =>
    [Effect.setContext "openapiTwoEnabled" true, Effect.setContext "openapiThreeEnabled" false]
  | OpenApiVersion.V3 =>
    [Effect.setContext "openapiThreeEnabled" true, Effect.setContext "openapiTwoEnabled" false]
  | OpenApiVersion.Unknown =>
    [Effect.setContext "openapiTwoEnabled" false, Effect.setContext "openapiThreeEnabled" false]

/-- `onActiveEditorChanged` from `extension.ts`: with an editor, parse
its document, always update the version context, then either set the
diagnostics and the error flag or clear them and fire the valid-tree
event, and finally fire the including-errors and editor events; with no
editor, fire all three events with empty payloads. -/
def onActiveEditorChanged (parseDocument : String → ParseResult)
    (editor : Option String) : List Effect :=
  match editor with
  | some uri =>
    let r := parseDocument uri
    Effect.parseCall uri :: updateVersionContext r.version ++
    (match r.errors with
     | some errors =>
       [Effect.diagnosticsSet uri errors, Effect.setContext "openapiErrors" true]
     | none =>
       [Effect.diagnosticsDelete uri, Effect.setContext "openapiErrors" false,
        Effect.fireTreeValid (some r.node)]) ++
    [Effect.fireTreeIncludingErrors (some r.node), Effect.fireEditor r.version]
  | none =>
    [Effect.fireTreeValid none, Effect.fireTreeIncludingErrors none,
     Effect.fireEditor OpenApiVersion.Unknown]

/-- `onDocumentChanged` from `extension.ts`: only when the changed
document is the active editor's document is it reparsed; the
including-errors event always fires then, while a parse with errors
sets the diagnostics and the error flag without touching the version
context or the valid-tree event, and an error-free parse clears them,
updates the version context and fires the valid-tree event. -/
def onDocumentChanged (parseDocument : String → ParseResult)
    (activeEditor : Option String) (eventUri : String) : List Effect :=
  match activeEditor with
  | none => []
  | some activeUri =>
    if activeUri = eventUri then
      let r := parseDocument eventUri
      Effect.parseCall eventUri :: Effect.fireTreeIncludingErrors (some r.node) ::
      (match r.errors with
       | some errors =>
         [Effect.diagnosticsSet eventUri errors, Effect.setContext "openapiErrors" true]
       | none =>
         [Effect.diagnosticsDelete eventUri, Effect.setContext "openapiErrors" false] ++
         updateVersionContext r.version ++ [Effect.fireTreeValid (some r.node)])
    else []

/-- The `onDidCloseTextDocument` subscription of `activate`: closing a
document deletes its diagnostics entry. -/
def onDocumentClosed (uri : String) : List Effect :=
  [Effect.diagnosticsDelete uri]

/-- One cache entry as consumed by `updateDiagnostics`: the document
uri and the parse errors of its current AST (null when the last parse
was clean). -/
structure CacheEntry where
  uri : String
  errors : Option (List String)
deriving Repr

/-- `updateDiagnostics` from the cache-based extension entry point:
with errors present, set them for the entry's uri and raise the error
flag; otherwise delete the entry's diagnostics and lower the flag. -/
def updateDiagnostics (current : CacheEntry) : List Effect :=
  match current.errors with
  | some errors =>
    [Effect.diagnosticsSet current.uri errors, Effect.setContext "openapiErrors" true]
  | none =>
    [Effect.diagnosticsDelete current.uri, Effect.setContext "openapiErrors" false]

/-- The diagnostics collection, an association of uris to their current
diagnostics. -/
def DiagnosticCollection := List (String × List String)
deriving DecidableEq, Repr

/-- `DiagnosticCollection.set`: replace the entry of a uri, or append
it when absent. -/
def diagSet : DiagnosticCollection → String → List String → DiagnosticCollection
  | [], uri, errors => [(uri, errors)]
  | (k, v) :: rest, uri, errors =>
    if k = uri then (uri, errors) :: rest else (k, v) :: diagSet rest uri errors

/-- `DiagnosticCollection.delete`: drop every entry of a uri. -/
def diagDelete : DiagnosticCollection → String → DiagnosticCollection
  | [], _ => []
  | (k, v) :: rest, uri =>
    if k = uri then diagDelete rest uri else (k, v) :: diagDelete rest uri

/-- Interpret the diagnostics-relevant effects of a handler run over a
diagnostics collection. -/
def applyDiagEffect (d : DiagnosticCollection) : Effect → DiagnosticCollection
  | Effect.diagnosticsSet uri errors => diagSet d uri errors
  | Effect.diagnosticsDelete uri => diagDelete d uri
  | _ => d

/-- Fold a whole effect list over the diagnostics collection. -/
def applyDiagEffects (d : DiagnosticCollection) (effects : List Effect) :
    DiagnosticCollection :=
  effects.foldl applyDiagEffect d

/-- The two version context flags set through `setContext`. -/
structure ContextFlags where
  openapiTwoEnabled : Bool
  openapiThreeEnabled : Bool
deriving DecidableEq, Repr

/-- Interpret the context-flag effects of a handler run. -/
def applyContextEffect (s : ContextFlags) : Effect → ContextFlags
  | Effect.setContext "openapiTwoEnabled" b => { s with openapiTwoEnabled := b }
  | Effect.setContext "openapiThreeEnabled" b => { s with openapiThreeEnabled := b }
  | _ => s

/-- Fold a whole effect list over the context flags. -/
def applyContextEffects (s : ContextFlags) (effects : List Effect) : ContextFlags :=
  effects.foldl applyContextEffect s

/-! Helper lemmas shared by the claim theorems. -/

/-- The total number of issues held across all per-document groups. -/
def totalIssueCount (d : List (String × List ReportedIssue)) : Nat :=
  (d.map (fun kv => kv.2.length)).sum

theorem totalIssueCount_nil : totalIssueCount [] = 0 := rfl

theorem totalIssueCount_insertIssue (d : List (String × List ReportedIssue))
    (uri : String) (issue : ReportedIssue) :
    totalIssueCount (insertIssue d uri issue) = totalIssueCount d + 1 := by
  induction d with
  | nil => rfl
  | cons kv rest ih =>
    obtain ⟨k, v⟩ := kv
    by_cases h : k = uri
    · simp [insertIssue, h, totalIssueCount]
      omega
    · simp [insertIssue, h, totalIssueCount] at ih ⊢
      omega

theorem mem_insertUri (uris : List String) (uri u : String) (h : u ∈ uris) :
    u ∈ insertUri uris uri := by
  unfold insertUri
  by_cases hm : uri ∈ uris
  · simpa [hm]
  · simp [hm]
    exact Or.inl h

theorem alistGet_append_some {β : Type} (l l2 : List (String × β)) (u : String) (v : β)
    (h : alistGet l u = some v) : alistGet (l ++ l2) u = some v := by
  induction l with
  | nil => simp [alistGet] at h
  | cons kv rest ih =>
    obtain ⟨k, w⟩ := kv
    by_cases hk : k = u
    · simpa [alistGet, hk] using h
    · simp [alistGet, hk] at h ⊢
      exact ih h

theorem alistGet_append_of_none {β : Type} (l l2 : List (String × β)) (u : String)
    (h : alistGet l u = none) : alistGet (l ++ l2) u = alistGet l2 u := by
  induction l with
  | nil => simp [alistGet]
  | cons kv rest ih =>
    obtain ⟨k, w⟩ := kv
    by_cases hk : k = u
    · simp [alistGet, hk] at h
    · simp [alistGet, hk] at h ⊢
      exact ih h

theorem alistGet_none_of_append {β : Type} (l l2 : List (String × β)) (u : String)
    (h : alistGet (l ++ l2) u = none) : alistGet l u = none := by
  induction l with
  | nil => simp [alistGet]
  | cons kv rest ih =>
    obtain ⟨k, w⟩ := kv
    by_cases hk : k = u
    · simp [alistGet, hk] at h
    · simp [alistGet, hk] at h ⊢
      exact ih h

theorem alistGet_diagSet (d : DiagnosticCollection) (uri : String) (errors : List String) :
    alistGet (diagSet d uri errors) uri = some errors := by
  induction d with
  | nil => simp [diagSet, alistGet]
  | cons kv rest ih =>
    obtain ⟨k, v⟩ := kv
    by_cases h : k = uri
    · simp [diagSet, h, alistGet]
    · simp [diagSet, h, alistGet, ih]

theorem alistGet_diagDelete (d : DiagnosticCollection) (uri : String) :
    alistGet (diagDelete d uri) uri = none := by
  induction d with
  | nil => rfl
  | cons kv rest ih =>
    obtain ⟨k, v⟩ := kv
    by_cases h : k = uri
    · simp [diagDelete, h, ih]
    · simp [diagDelete, h, alistGet, ih]

theorem foldl_applyDiagEffect_updateVersionContext (d : DiagnosticCollection)
    (version : OpenApiVersion) :
    List.foldl applyDiagEffect d (updateVersionContext version) = d := by
  cases version <;> rfl

theorem processIssuesLoop_count (mainUri : String) (root : Ast) (mappings : Mappings)
    (issues : List ReportedIssue) :
    ∀ (uris : List String) (perDoc : List (String × List ReportedIssue))
      (bad : List ReportedIssue) (uris2 : List String)
      (perDoc2 : List (String × List ReportedIssue)) (bad2 : List ReportedIssue),
      processIssuesLoop mainUri root mappings issues uris perDoc bad =
        Except.ok (uris2, perDoc2, bad2) →
      totalIssueCount perDoc2 + bad2.length =
        totalIssueCount perDoc + bad.length + issues.length := by
  induction issues with
  | nil =>
    intro uris perDoc bad uris2 perDoc2 bad2 h
    simp [processIssuesLoop] at h
    obtain ⟨h1, h2, h3⟩ := h
    subst h2
    subst h3
    simp
  | cons issue rest ih =>
    intro uris perDoc bad uris2 perDoc2 bad2 h
    simp only [processIssuesLoop] at h
    cases hf : findIssueLocation mainUri root mappings issue.pointer with
    | error e => rw [hf] at h; cases h
    | ok o =>
      rw [hf] at h
      cases o with
      | none =>
        have := ih uris perDoc (bad ++ [issue]) uris2 perDoc2 bad2 h
        simp at this
        simp [this]
        omega
      | some loc =>
        obtain ⟨uri, pointer⟩ := loc
        have := ih (insertUri uris uri)
          (insertIssue perDoc uri { issue with pointer := pointer }) bad uris2 perDoc2 bad2 h
        rw [totalIssueCount_insertIssue] at this
        simp [this]
        omega

theorem processIssuesLoop_mem_uris (mainUri : String) (root : Ast) (mappings : Mappings)
    (issues : List ReportedIssue) :
    ∀ (uris : List String) (perDoc : List (String × List ReportedIssue))
      (bad : List ReportedIssue) (uris2 : List String)
      (perDoc2 : List (String × List ReportedIssue)) (bad2 : List ReportedIssue)
      (u : String), u ∈ uris →
      processIssuesLoop mainUri root mappings issues uris perDoc bad =
        Except.ok (uris2, perDoc2, bad2) →
      u ∈ uris2 := by
  induction issues with
  | nil =>
    intro uris perDoc bad uris2 perDoc2 bad2 u hu h
    simp [processIssuesLoop] at h
    obtain ⟨h1, h2, h3⟩ := h
    subst h1
    exact hu
  | cons issue rest ih =>
    intro uris perDoc bad uris2 perDoc2 bad2 u hu h
    simp only [processIssuesLoop] at h
    cases hf : findIssueLocation mainUri root mappings issue.pointer with
    | error e => rw [hf] at h; cases h
    | ok o =>
      rw [hf] at h
      cases o with
      | none => exact ih uris perDoc (bad ++ [issue]) uris2 perDoc2 bad2 u hu h
      | some loc =>
        obtain ⟨uri, pointer⟩ := loc
        exact ih (insertUri uris uri)
          (insertIssue perDoc uri { issue with pointer := pointer }) bad uris2 perDoc2 bad2 u
          (mem_insertUri uris uri u hu) h

theorem loadFilesLoop_preserves (cache : Cache) (uris : List String) :
    ∀ (files : List (String × Ast)) (u : String) (v : Ast), alistGet files u = some v →
      alistGet (loadFilesLoop cache uris files).1 u = some v := by
  induction uris with
  | nil =>
    intro files u v h
    simpa [loadFilesLoop] using h
  | cons uri rest ih =>
    intro files u v h
    cases hg : alistGet files uri with
    | some w =>
      simp only [loadFilesLoop, hg]
      exact ih files u v h
    | none =>
      simp only [loadFilesLoop, hg]
      exact ih _ u v (alistGet_append_some _ _ _ _ h)

theorem loadFilesLoop_opens_fresh (cache : Cache) (uris : List String) :
    ∀ (files : List (String × Ast)) (u : String),
      u ∈ (loadFilesLoop cache uris files).2 → alistGet files u = none := by
  induction uris with
  | nil =>
    intro files u hu
    simp [loadFilesLoop] at hu
  | cons uri rest ih =>
    intro files u hu
    cases hg : alistGet files uri with
    | some w =>
      simp only [loadFilesLoop, hg] at hu
      exact ih files u hu
    | none =>
      simp only [loadFilesLoop, hg, List.mem_cons] at hu
      cases hu with
      | inl he => subst he; exact hg
      | inr hm =>
        exact alistGet_none_of_append _ _ _ (ih _ u hm)

theorem loadFilesLoop_opens_nodup (cache : Cache) (uris : List String) :
    ∀ files : List (String × Ast), (loadFilesLoop cache uris files).2.Nodup := by
  induction uris with
  | nil =>
    intro files
    simp [loadFilesLoop]
  | cons uri rest ih =>
    intro files
    cases hg : alistGet files uri with
    | some w =>
      simp only [loadFilesLoop, hg]
      exact ih files
    | none =>
      simp only [loadFilesLoop, hg, List.nodup_cons]
      refine ⟨?_, ih _⟩
      intro hmem
      have hfresh := loadFilesLoop_opens_fresh cache rest _ uri hmem
      rw [alistGet_append_of_none _ _ _ hg] at hfresh
      simp [alistGet] at hfresh

theorem loadFilesLoop_covers (cache : Cache) (uris : List String) :
    ∀ (files : List (String × Ast)) (u : String), u ∈ uris →
      (alistGet (loadFilesLoop cache uris files).1 u).isSome = true := by
  induction uris with
  | nil =>
    intro files u hu
    simp at hu
  | cons uri rest ih =>
    intro files u hu
    cases hg : alistGet files uri with
    | some w =>
      simp only [loadFilesLoop, hg]
      cases List.mem_cons.mp hu with
      | inl he =>
        subst he
        have := loadFilesLoop_preserves cache rest files u w hg
        simp [this]
      | inr hm => exact ih files u hm
    | none =>
      simp only [loadFilesLoop, hg]
      cases List.mem_cons.mp hu with
      | inl he =>
        subst he
        have h2 : alistGet (files ++ [(u, cache.getLastGoodDocumentAst u)]) u =
            some (cache.getLastGoodDocumentAst u) := by
          rw [alistGet_append_of_none _ _ _ hg]
          simp [alistGet]
        have := loadFilesLoop_preserves cache rest _ u _ h2
        simp [this]
      | inr hm => exact ih _ u hm

/-! Claim theorems. -/

/-- C1: for every issue-mapping run that returns, every input issue is
placed in exactly one of the two outputs, so the number of resolved
issues summed over the per-document groups plus the number of bad
issues equals the number of input issues. -/
theorem processIssues_conserves_issue_count (documentUri : String) (cache : Cache)
    (mappings : Mappings) (issues : List ReportedIssue) (root : Ast)
    (documentUris : List String)
    (issuesPerDocument : List (String × List ReportedIssue))
    (badIssues : List ReportedIssue)
    (h : processIssues documentUri cache mappings issues =
      Except.ok (root, documentUris, issuesPerDocument, badIssues)) :
    totalIssueCount issuesPerDocument + badIssues.length = issues.length := by
  simp only [processIssues] at h
  cases hl : processIssuesLoop documentUri (cache.getLastGoodDocumentAst documentUri)
      mappings issues [documentUri] [] [] with
  | error e => rw [hl] at h; cases h
  | ok t =>
    obtain ⟨uris, perDoc, bad⟩ := t
    rw [hl] at h
    simp only [Except.ok.injEq, Prod.mk.injEq] at h
    obtain ⟨hroot, huris, hperDoc, hbad⟩ := h
    subst huris
    subst hperDoc
    subst hbad
    have := processIssuesLoop_count documentUri (cache.getLastGoodDocumentAst documentUri)
      mappings issues [documentUri] [] [] _ _ _ hl
    simpa [totalIssueCount] using this

/-- C1 witness: a run with one issue resolving into the root document
and one bad issue conserves the count, 1 + 1 = 2. -/
theorem processIssues_conserves_issue_count_witness :
    totalIssueCount [("main", [⟨"/paths", 5, "m1", "r1"⟩])] +
      [(⟨"/bad", 4, "m2", "r2"⟩ : ReportedIssue)].length =
      [(⟨"/paths", 5, "m1", "r1"⟩ : ReportedIssue), ⟨"/bad", 4, "m2", "r2"⟩].length :=
  processIssues_conserves_issue_count "main" ⟨fun _ => [⟨"/paths", 1, 0, 10⟩]⟩
    [("/bad", ⟨"ext", some "/q", none⟩)]
    [⟨"/paths", 5, "m1", "r1"⟩, ⟨"/bad", 4, "m2", "r2"⟩]
    [⟨"/paths", 1, 0, 10⟩] ["main"] [("main", [⟨"/paths", 5, "m1", "r1"⟩])]
    [⟨"/bad", 4, "m2", "r2"⟩] rfl

/-- C2 counterexample: a pointer missing from the root whose Mapping
Table entry carries a pointer and no hash does not resolve to that
entry's uri and pointer as the claim states; the code returns no
location at all, because it only ever consults `mapping.hash`. -/
theorem findIssueLocation_counterexample_pointer_entry :
    findIssueLocation "main" [⟨"", 0, 0, 1⟩] [("p", ⟨"ext", some "q", none⟩)] "p" =
      Except.ok none ∧
    (Except.ok none : Except String (Option (String × String))) ≠
      Except.ok (some ("ext", "q")) := by
  constructor
  · rfl
  · simp

/-- C2 amended: resolution looks the pointer up in the root AST first
and on success resolves to the main document with the same pointer;
only when that fails is the Mapping Table consulted, and the mapping
resolves the issue only when its entry carries a hash, yielding the
entry's uri with that hash; an entry without a hash yields no
location. -/
theorem findIssueLocation_root_first_then_mapping_hash (mainUri : String) (root : Ast)
    (mappings : Mappings) (pointer : String) :
    (∀ n, Ast.find root pointer = some n →
      findIssueLocation mainUri root mappings pointer =
        Except.ok (some (mainUri, pointer))) ∧
    (Ast.find root pointer = none →
      ∀ m h, findMapping mappings pointer = some m → m.hash = some h →
        findIssueLocation mainUri root mappings pointer =
          Except.ok (some (m.uri, h))) ∧
    (Ast.find root pointer = none →
      ∀ m, findMapping mappings pointer = some m → m.hash = none →
        findIssueLocation mainUri root mappings pointer = Except.ok none) := by
  refine ⟨?_, ?_, ?_⟩
  · intro n hn
    simp [findIssueLocation, hn]
  · intro hn m h hm hh
    simp [findIssueLocation, hn, hm, hh]
  · intro hn m hm hh
    simp [findIssueLocation, hn, hm, hh]

/-- C2 amended witness: a root hit resolves to the main document, and
a mapping entry with a hash resolves to its uri and hash. -/
theorem findIssueLocation_root_first_then_mapping_hash_witness :
    findIssueLocation "main" [⟨"/a", 1, 2, 3⟩] [("/b", ⟨"ext", none, some "#h"⟩)] "/a" =
      Except.ok (some ("main", "/a")) ∧
    findIssueLocation "main" [⟨"/a", 1, 2, 3⟩] [("/b", ⟨"ext", none, some "#h"⟩)] "/b" =
      Except.ok (some ("ext", "#h")) :=
  ⟨(findIssueLocation_root_first_then_mapping_hash "main" [⟨"/a", 1, 2, 3⟩]
      [("/b", ⟨"ext", none, some "#h"⟩)] "/a").1 ⟨"/a", 1, 2, 3⟩ rfl,
   (findIssueLocation_root_first_then_mapping_hash "main" [⟨"/a", 1, 2, 3⟩]
      [("/b", ⟨"ext", none, some "#h"⟩)] "/b").2.1 rfl ⟨"ext", none, some "#h"⟩ "#h" rfl rfl⟩

/-- C3: at an issue whose pointer is found neither in the root AST nor
in the Mapping Table, the run does not complete with the issue in the
bad-issue list; it aborts with a TypeError, because the source reads
`mapping.hash` off the undefined result of `findMapping`. -/
theorem processIssues_throws_on_unmapped_pointer :
    processIssues "main" ⟨fun _ => [⟨"", 0, 0, 1⟩]⟩ [] [⟨"/a", 5, "m", "r"⟩] =
      Except.error "TypeError: Cannot read property hash of undefined" := rfl

/-- C9: after `updateVersionContext`, v2 input sets exactly the
two-flag, v3 input sets exactly the three-flag, any other version
clears both, and the two flags are never simultaneously true. -/
theorem updateVersionContext_flags_exclusive (version : OpenApiVersion)
    (s : ContextFlags) :
    applyContextEffects s (updateVersionContext version) =
      (match version with
       | OpenApiVersion.V2 => ⟨true, false⟩
       | OpenApiVersion.V3 => ⟨false, true⟩
       | OpenApiVersion.Unknown => ⟨false, false⟩) ∧
    ¬((applyContextEffects s (updateVersionContext version)).openapiTwoEnabled = true ∧
      (applyContextEffects s (updateVersionContext version)).openapiThreeEnabled = true) := by
  cases version <;> exact ⟨rfl, by simp [applyContextEffects, updateVersionContext,
    applyContextEffect, List.foldl]⟩

/-- C9 witness: starting from both flags raised, a v2 update leaves
exactly the two-flag set. -/
theorem updateVersionContext_flags_exclusive_witness :
    applyContextEffects ⟨true, true⟩ (updateVersionContext OpenApiVersion.V2) =
      ⟨true, false⟩ :=
  (updateVersionContext_flags_exclusive OpenApiVersion.V2 ⟨true, true⟩).1

/-- C10: every completed issue-mapping run returns a uri list that
contains the main document's uri, and the files table of
`auditDocument` built from it maps the main uri to the main document's
last-good AST. -/
theorem processIssues_includes_main_document (documentUri : String) (cache : Cache)
    (mappings : Mappings) (issues : List ReportedIssue) (root : Ast)
    (documentUris : List String)
    (issuesPerDocument : List (String × List ReportedIssue))
    (badIssues : List ReportedIssue)
    (h : processIssues documentUri cache mappings issues =
      Except.ok (root, documentUris, issuesPerDocument, badIssues)) :
    documentUri ∈ documentUris ∧
    alistGet (loadFiles cache documentUri root documentUris).1 documentUri = some root := by
  constructor
  · simp only [processIssues] at h
    cases hl : processIssuesLoop documentUri (cache.getLastGoodDocumentAst documentUri)
        mappings issues [documentUri] [] [] with
    | error e => rw [hl] at h; cases h
    | ok t =>
      obtain ⟨uris, perDoc, bad⟩ := t
      rw [hl] at h
      simp only [Except.ok.injEq, Prod.mk.injEq] at h
      obtain ⟨hroot, huris, hperDoc, hbad⟩ := h
      subst huris
      exact processIssuesLoop_mem_uris documentUri
        (cache.getLastGoodDocumentAst documentUri) mappings issues [documentUri] [] []
        _ _ _ documentUri (by simp) hl
  · exact loadFilesLoop_preserves cache documentUris [(documentUri, root)] documentUri root
      (by simp [alistGet])

/-- C10 witness: an empty issue list still yields the main uri and a
files table holding the main document's AST. -/
theorem processIssues_includes_main_document_witness :
    "main" ∈ ["main"] ∧
    alistGet (loadFiles ⟨fun _ => [⟨"/a", 1, 2, 3⟩]⟩ "main" [⟨"/a", 1, 2, 3⟩] ["main"]).1
      "main" = some [⟨"/a", 1, 2, 3⟩] :=
  processIssues_includes_main_document "main" ⟨fun _ => [⟨"/a", 1, 2, 3⟩]⟩ [] []
    [⟨"/a", 1, 2, 3⟩] ["main"] [] [] rfl

/-- C4: a change event of the active document whose parse yields
errors fires no valid-tree event and touches neither version context
flag, while the errors are set on the diagnostics sink; and whenever a
change event does fire the valid-tree event, the parse was error-free,
in which case the version context effects are also emitted. -/
theorem onDocumentChanged_freezes_on_parse_errors
    (parseDocument : String → ParseResult) (uri : String) (errors : List String)
    (h : (parseDocument uri).errors = some errors) :
    (∀ n, Effect.fireTreeValid n ∉ onDocumentChanged parseDocument (some uri) uri) ∧
    (∀ b, Effect.setContext "openapiTwoEnabled" b ∉
      onDocumentChanged parseDocument (some uri) uri) ∧
    (∀ b, Effect.setContext "openapiThreeEnabled" b ∉
      onDocumentChanged parseDocument (some uri) uri) ∧
    Effect.diagnosticsSet uri errors ∈ onDocumentChanged parseDocument (some uri) uri ∧
    (∀ (parseDocument2 : String → ParseResult) (uri2 : String) (n : Option Ast),
      Effect.fireTreeValid n ∈ onDocumentChanged parseDocument2 (some uri2) uri2 →
      (parseDocument2 uri2).errors = none ∧
      ∀ e ∈ updateVersionContext (parseDocument2 uri2).version,
        e ∈ onDocumentChanged parseDocument2 (some uri2) uri2) := by
  refine ⟨?_, ?_, ?_, ?_, ?_⟩
  · intro n
    simp [onDocumentChanged, h]
  · intro b
    simp [onDocumentChanged, h]
  · intro b
    simp [onDocumentChanged, h]
  · simp [onDocumentChanged, h]
  · intro parseDocument2 uri2 n hmem
    cases h2 : (parseDocument2 uri2).errors with
    | some errors2 => simp [onDocumentChanged, h2] at hmem
    | none =>
      refine ⟨rfl, ?_⟩
      intro e he
      simp [onDocumentChanged, h2]
      tauto

/-- C4 witness: for a parser returning errors, the handler run on the
active document sets the diagnostics for it. -/
theorem onDocumentChanged_freezes_on_parse_errors_witness :
    Effect.diagnosticsSet "u" ["err"] ∈
      onDocumentChanged (fun _ => ⟨OpenApiVersion.V2, [], some ["err"]⟩) (some "u") "u" :=
  (onDocumentChanged_freezes_on_parse_errors
    (fun _ => ⟨OpenApiVersion.V2, [], some ["err"]⟩) "u" ["err"] rfl).2.2.2.1

/-- C5: a document-change event triggers a parse exactly when its uri
is the active editor's uri, and any event for an inactive document
produces no effect at all. -/
theorem onDocumentChanged_parses_active_document_only
    (parseDocument : String → ParseResult) (activeEditor : Option String)
    (eventUri : String) :
    (Effect.parseCall eventUri ∈ onDocumentChanged parseDocument activeEditor eventUri ↔
      activeEditor = some eventUri) ∧
    (activeEditor ≠ some eventUri →
      onDocumentChanged parseDocument activeEditor eventUri = []) := by
  constructor
  · constructor
    · intro hmem
      cases activeEditor with
      | none => simp [onDocumentChanged] at hmem
      | some activeUri =>
        by_cases he : activeUri = eventUri
        · simp [he]
        · simp [onDocumentChanged, he] at hmem
    · intro ha
      subst ha
      simp [onDocumentChanged]
  · intro hne
    cases activeEditor with
    | none => rfl
    | some activeUri =>
      have : activeUri ≠ eventUri := by
        intro he
        exact hne (by rw [he])
      simp [onDocumentChanged, this]

/-- C5 witness: an event for the active document parses it, and an
event for an inactive document yields no effects. -/
theorem onDocumentChanged_parses_active_document_only_witness :
    Effect.parseCall "u" ∈
      onDocumentChanged (fun _ => ⟨OpenApiVersion.V2, [], none⟩) (some "u") "u" ∧
    onDocumentChanged (fun _ => ⟨OpenApiVersion.V2, [], none⟩) (some "other") "u" = [] :=
  ⟨(onDocumentChanged_parses_active_document_only
      (fun _ => ⟨OpenApiVersion.V2, [], none⟩) (some "u") "u").1.mpr rfl,
   (onDocumentChanged_parses_active_document_only
      (fun _ => ⟨OpenApiVersion.V2, [], none⟩) (some "other") "u").2 (by simp)⟩

/-- C6: during one issue-mapping pass, the document-loading loop of
`auditDocument` opens each uri at most once, never opens the already
available main document, and afterwards every requested uri has a
parsed entry in the files table for the remaining issues to reuse. -/
theorem auditDocument_opens_each_document_once (cache : Cache) (mainUri : String)
    (mainRoot : Ast) (documentUris : List String) :
    (loadFiles cache mainUri mainRoot documentUris).2.Nodup ∧
    mainUri ∉ (loadFiles cache mainUri mainRoot documentUris).2 ∧
    ∀ uri ∈ documentUris,
      (alistGet (loadFiles cache mainUri mainRoot documentUris).1 uri).isSome = true := by
  refine ⟨loadFilesLoop_opens_nodup cache documentUris _, ?_, ?_⟩
  · intro hmem
    have := loadFilesLoop_opens_fresh cache documentUris [(mainUri, mainRoot)] mainUri hmem
    simp [alistGet] at this
  · intro uri hu
    exact loadFilesLoop_covers cache documentUris _ uri hu

/-- C6 witness: a pass requesting the same external uri twice opens it
only once and keeps the main document unopened. -/
theorem auditDocument_opens_each_document_once_witness :
    (loadFiles ⟨fun _ => []⟩ "main" [] ["ext", "ext"]).2.Nodup ∧
    "main" ∉ (loadFiles ⟨fun _ => []⟩ "main" [] ["ext", "ext"]).2 ∧
    ∀ uri ∈ ["ext", "ext"],
      (alistGet (loadFiles ⟨fun _ => []⟩ "main" [] ["ext", "ext"]).1 uri).isSome = true :=
  auditDocument_opens_each_document_once ⟨fun _ => []⟩ "main" [] ["ext", "ext"]

/-- C7: every issue produced for the group of document uri U carries
documentUri U, gains the location fields from the location resolver,
and keeps pointer, severity, message and ruleId of the group's input
issue unchanged. -/
theorem auditDocument_resolved_issue_fields (root : Ast) (uri : String)
    (reportedIssues : List ReportedIssue) (issue : Issue)
    (h : issue ∈ makeIssues root uri reportedIssues) :
    issue.documentUri = uri ∧
    ∃ r ∈ reportedIssues,
      issue.pointer = r.pointer ∧ issue.severity = r.severity ∧
      issue.message = r.message ∧ issue.ruleId = r.ruleId ∧
      (issue.lineNo, issue.rangeStart, issue.rangeEnd) =
        getLocationByPointer root r.pointer := by
  simp only [makeIssues, List.mem_map] at h
  obtain ⟨r, hr, heq⟩ := h
  subst heq
  exact ⟨rfl, r, hr, rfl, rfl, rfl, rfl, rfl⟩

/-- C7 witness: the single resolved issue of a one-issue group carries
the group's uri, the node's location, and the unchanged issue data. -/
theorem auditDocument_resolved_issue_fields_witness :
    (⟨"p", 2, "m", "r", "u", 3, 4, 5⟩ : Issue).documentUri = "u" ∧
    ∃ r ∈ [(⟨"p", 2, "m", "r"⟩ : ReportedIssue)],
      (⟨"p", 2, "m", "r", "u", 3, 4, 5⟩ : Issue).pointer = r.pointer ∧
      (⟨"p", 2, "m", "r", "u", 3, 4, 5⟩ : Issue).severity = r.severity ∧
      (⟨"p", 2, "m", "r", "u", 3, 4, 5⟩ : Issue).message = r.message ∧
      (⟨"p", 2, "m", "r", "u", 3, 4, 5⟩ : Issue).ruleId = r.ruleId ∧
      ((⟨"p", 2, "m", "r", "u", 3, 4, 5⟩ : Issue).lineNo,
       (⟨"p", 2, "m", "r", "u", 3, 4, 5⟩ : Issue).rangeStart,
       (⟨"p", 2, "m", "r", "u", 3, 4, 5⟩ : Issue).rangeEnd) =
        getLocationByPointer [⟨"p", 3, 4, 5⟩] r.pointer :=
  auditDocument_resolved_issue_fields [⟨"p", 3, 4, 5⟩] "u" [⟨"p", 2, "m", "r"⟩]
    ⟨"p", 2, "m", "r", "u", 3, 4, 5⟩ (by decide)

/-- C8: closing a document clears its diagnostics entry; a clean
reparse clears it, whether through `updateDiagnostics`, the
active-editor-change handler or the document-change handler; a reparse
with errors sets the entry to those errors instead. -/
theorem diagnostics_cleared_on_close_and_clean_reparse (d : DiagnosticCollection)
    (uri : String) (parseDocument : String → ParseResult) (current : CacheEntry) :
    alistGet (applyDiagEffects d (onDocumentClosed uri)) uri = none ∧
    (current.errors = none →
      alistGet (applyDiagEffects d (updateDiagnostics current)) current.uri = none) ∧
    (∀ errors, current.errors = some errors →
      alistGet (applyDiagEffects d (updateDiagnostics current)) current.uri =
        some errors) ∧
    ((parseDocument uri).errors = none →
      alistGet (applyDiagEffects d (onActiveEditorChanged parseDocument (some uri)))
        uri = none) ∧
    (∀ errors, (parseDocument uri).errors = some errors →
      alistGet (applyDiagEffects d (onActiveEditorChanged parseDocument (some uri)))
        uri = some errors) ∧
    ((parseDocument uri).errors = none →
      alistGet (applyDiagEffects d (onDocumentChanged parseDocument (some uri) uri))
        uri = none) ∧
    (∀ errors, (parseDocument uri).errors = some errors →
      alistGet (applyDiagEffects d (onDocumentChanged parseDocument (some uri) uri))
        uri = some errors) := by
  refine ⟨?_, ?_, ?_, ?_, ?_, ?_, ?_⟩
  · simp [onDocumentClosed, applyDiagEffects, applyDiagEffect, alistGet_diagDelete]
  · intro h
    simp [updateDiagnostics, h, applyDiagEffects, applyDiagEffect, alistGet_diagDelete]
  · intro errors h
    simp [updateDiagnostics, h, applyDiagEffects, applyDiagEffect, alistGet_diagSet]
  · intro h
    simp [onActiveEditorChanged, h, applyDiagEffects, List.foldl_append,
      foldl_applyDiagEffect_updateVersionContext, applyDiagEffect, alistGet_diagDelete]
  · intro errors h
    simp [onActiveEditorChanged, h, applyDiagEffects, List.foldl_append,
      foldl_applyDiagEffect_updateVersionContext, applyDiagEffect, alistGet_diagSet]
  · intro h
    simp [onDocumentChanged, h, applyDiagEffects, List.foldl_append,
      foldl_applyDiagEffect_updateVersionContext, applyDiagEffect, alistGet_diagDelete]
  · intro errors h
    simp [onDocumentChanged, h, applyDiagEffects, applyDiagEffect, alistGet_diagSet]

/-- C8 witness: closing clears the entry, and a clean document-change
reparse clears a previously set entry. -/
theorem diagnostics_cleared_on_close_and_clean_reparse_witness :
    alistGet (applyDiagEffects [("u", ["old"])] (onDocumentClosed "u")) "u" = none ∧
    alistGet (applyDiagEffects [("u", ["old"])]
      (onDocumentChanged (fun _ => ⟨OpenApiVersion.V2, [], none⟩) (some "u") "u"))
      "u" = none :=
  ⟨(diagnostics_cleared_on_close_and_clean_reparse [("u", ["old"])] "u"
      (fun _ => ⟨OpenApiVersion.V2, [], none⟩) ⟨"u", none⟩).1,
   (diagnostics_cleared_on_close_and_clean_reparse [("u", ["old"])] "u"
      (fun _ => ⟨OpenApiVersion.V2, [], none⟩) ⟨"u", none⟩).2.2.2.2.2.1 rfl⟩

end OpenApiExt
